import Mathlib

/-!
Shallow embedding of thermompnn/model/v2_model.py (class TransferModelv2 and
its helpers) and verification of the specification's claims about it.

Modelling conventions:
- float tensor entries are modelled as rationals; NaN entries are modelled as
  none in an Option so that nanmean-style reductions are expressible; the
  minus-infinity fill used by the max aggregation is modelled as the bottom
  element of WithBot;
- integer tensors (amino-acid indices, mutation positions) are modelled as
  lists or Fin-indexed functions over the integers;
- fallible tensor operations (out-of-range gather) return Option and raised
  exceptions are modelled with Except.
-/

namespace ThermoMPNN

/-- Embedding of torch.nanmean along a dimension: the mean of the non-NaN
entries, NaN (none) when every entry is NaN. -/
def nanmean (l : List (Option ℚ)) : Option ℚ :=
  let xs := l.filterMap id
  if xs.length = 0 then none else some (xs.sum / xs.length)

/-- Embedding of torch.nan_to_num with nan=0 on a scalar. -/
def nan_to_num (o : Option ℚ) : ℚ := o.getD 0

/-- Elementwise zip of three equally long lists, as torch does for the
elementwise expression mut + wt + pos. -/
def zipWith3 (f : α → β → γ → δ) : List α → List β → List γ → List δ
  | a :: as, b :: bs, c :: cs => f a b c :: zipWith3 f as bs cs
  | _, _, _ => []

/-- The per-slot padding mask of v2_model.py lines 241 and 282: slot i is
masked exactly when mut_mutant_AAs[i] + mut_wildtype_AAs[i] +
mut_positions[i] == 0 (one batch row). -/
def mkMask (mutAAs wtAAs posns : List ℤ) : List Bool :=
  zipWith3 (fun m w p => m + w + p == 0) mutAAs wtAAs posns

/-- Line 288 of v2_model.py: all_mpnn_embed[mask] = torch.nan, one coordinate
of the embedding dimension; vals are the per-slot values at that coordinate. -/
def maskFillNaN (vals : List ℚ) (mask : List Bool) : List (Option ℚ) :=
  List.zipWith (fun v m => if m then none else some v) vals mask

/-- Lines 288-289: fill masked slots with NaN, then torch.nanmean over the
slot dimension. -/
def agg_mean (vals : List ℚ) (mask : List Bool) : Option ℚ :=
  nanmean (maskFillNaN vals mask)

/-- Lines 291-292: fill masked slots with 0, then torch.sum over the slot
dimension. -/
def agg_sum (vals : List ℚ) (mask : List Bool) : ℚ :=
  (List.zipWith (fun v m => if m then 0 else v) vals mask).sum

/-- Lines 294-295: fill masked slots with 1, then torch.prod over the slot
dimension. -/
def agg_prod (vals : List ℚ) (mask : List Bool) : ℚ :=
  (List.zipWith (fun v m => if m then 1 else v) vals mask).prod

/-- Lines 297-298: fill masked slots with -inf (bottom), then torch.max over
the slot dimension. -/
def agg_max (vals : List ℚ) (mask : List Bool) : WithBot ℚ :=
  (List.zipWith (fun v m => if m then (⊥ : WithBot ℚ) else (v : WithBot ℚ)) vals mask).foldr max ⊥

/-- The values sitting in the non-masked slots, in order (the specification
side of the aggregation claims). -/
def unmaskedVals (vals : List ℚ) (mask : List Bool) : List ℚ :=
  (vals.zip mask).filterMap (fun p => if p.2 then none else some p.1)

theorem unmaskedVals_nil (mask : List Bool) : unmaskedVals [] mask = [] := by
  simp [unmaskedVals]

theorem unmaskedVals_cons (v : ℚ) (vs : List ℚ) (m : Bool) (ms : List Bool) :
    unmaskedVals (v :: vs) (m :: ms)
      = if m then unmaskedVals vs ms else v :: unmaskedVals vs ms := by
  cases m <;> simp [unmaskedVals, List.filterMap_cons]

theorem filterMap_maskFillNaN (vals : List ℚ) (mask : List Bool) :
    (maskFillNaN vals mask).filterMap id = unmaskedVals vals mask := by
  induction vals generalizing mask with
  | nil => simp [maskFillNaN, unmaskedVals]
  | cons v vs ih =>
    cases mask with
    | nil => simp [maskFillNaN, unmaskedVals]
    | cons m ms =>
      have h := ih ms
      simp only [maskFillNaN] at h
      cases m <;>
        simp [maskFillNaN, List.zipWith_cons_cons, List.filterMap_cons,
          unmaskedVals_cons, h]

theorem agg_sum_eq_sum_unmasked (vals : List ℚ) (mask : List Bool) :
    agg_sum vals mask = (unmaskedVals vals mask).sum := by
  induction vals generalizing mask with
  | nil => simp [agg_sum, unmaskedVals]
  | cons v vs ih =>
    cases mask with
    | nil => simp [agg_sum, unmaskedVals]
    | cons m ms =>
      cases m <;>
        simp [agg_sum, List.zipWith_cons_cons, unmaskedVals_cons, ← ih ms]

theorem agg_prod_eq_prod_unmasked (vals : List ℚ) (mask : List Bool) :
    agg_prod vals mask = (unmaskedVals vals mask).prod := by
  induction vals generalizing mask with
  | nil => simp [agg_prod, unmaskedVals]
  | cons v vs ih =>
    cases mask with
    | nil => simp [agg_prod, unmaskedVals]
    | cons m ms =>
      cases m <;>
        simp [agg_prod, List.zipWith_cons_cons, unmaskedVals_cons, ← ih ms]

theorem agg_max_eq_maximum_unmasked (vals : List ℚ) (mask : List Bool) :
    agg_max vals mask = (unmaskedVals vals mask).maximum := by
  induction vals generalizing mask with
  | nil => simp [agg_max, unmaskedVals, List.maximum_nil]
  | cons v vs ih =>
    cases mask with
    | nil => simp [agg_max, unmaskedVals, List.maximum_nil]
    | cons m ms =>
      cases m with
      | false =>
        simp [agg_max, List.zipWith_cons_cons, unmaskedVals_cons,
          List.maximum_cons, ← ih ms, List.foldr_cons]
      | true =>
        have h := ih ms
        simp [agg_max, List.zipWith_cons_cons, unmaskedVals_cons,
          List.foldr_cons] at *
        simp [← h, agg_max]

theorem agg_mean_eq_mean_unmasked (vals : List ℚ) (mask : List Bool) :
    agg_mean vals mask
      = (if (unmaskedVals vals mask).length = 0 then none
         else some ((unmaskedVals vals mask).sum / (unmaskedVals vals mask).length)) := by
  simp [agg_mean, nanmean, filterMap_maskFillNaN]

theorem zipWith3_nil (f : α → β → γ → δ) (bs : List β) (cs : List γ) :
    zipWith3 f [] bs cs = [] := by
  cases bs <;> cases cs <;> rfl

/-- C1: in multi-mutation mode with a mean/sum/prod/max aggregation, the
combined embedding equals the chosen aggregation taken only over the
non-masked mutation slots (slot i masked iff mut + wt + pos is 0 there);
masked slots, overwritten with each aggregation's neutral fill (NaN for
nanmean, 0 for sum, 1 for prod, bottom i.e. minus infinity for max), never
affect the result. Stated per coordinate of the embedding dimension, with
vals the post-LightAttention slot values at that coordinate. -/
theorem claim_C1 (vals : List ℚ) (mutAAs wtAAs posns : List ℤ)
    (hm : mutAAs.length = vals.length)
    (h0 : (mkMask mutAAs wtAAs posns).head? = some false) :
    agg_mean vals (mkMask mutAAs wtAAs posns)
        = some ((unmaskedVals vals (mkMask mutAAs wtAAs posns)).sum
            / (unmaskedVals vals (mkMask mutAAs wtAAs posns)).length)
    ∧ agg_sum vals (mkMask mutAAs wtAAs posns)
        = (unmaskedVals vals (mkMask mutAAs wtAAs posns)).sum
    ∧ agg_prod vals (mkMask mutAAs wtAAs posns)
        = (unmaskedVals vals (mkMask mutAAs wtAAs posns)).prod
    ∧ agg_max vals (mkMask mutAAs wtAAs posns)
        = (unmaskedVals vals (mkMask mutAAs wtAAs posns)).maximum := by
  have hne : (unmaskedVals vals (mkMask mutAAs wtAAs posns)).length ≠ 0 := by
    cases hM : mkMask mutAAs wtAAs posns with
    | nil => rw [hM] at h0; simp at h0
    | cons b ms =>
      rw [hM] at h0
      simp only [List.head?_cons, Option.some.injEq] at h0
      subst h0
      cases vals with
      | nil =>
        exfalso
        cases mutAAs with
        | nil =>
          simp only [mkMask] at hM
          rw [zipWith3_nil] at hM
          exact List.cons_ne_nil _ _ hM.symm
        | cons x xs => simp at hm
      | cons v vs =>
        rw [unmaskedVals_cons]
        simp
  refine ⟨?_, agg_sum_eq_sum_unmasked _ _, agg_prod_eq_prod_unmasked _ _,
    agg_max_eq_maximum_unmasked _ _⟩
  rw [agg_mean_eq_mean_unmasked]
  simp [hne]

theorem claim_C1_witness :
    ([(1:ℤ), 0].length = [(2:ℚ), 5].length
      ∧ (mkMask [1, 0] [2, 0] [3, 0]).head? = some false)
    ∧ (agg_mean [(2:ℚ), 5] (mkMask [1, 0] [2, 0] [3, 0])
        = some ((unmaskedVals [(2:ℚ), 5] (mkMask [1, 0] [2, 0] [3, 0])).sum
            / (unmaskedVals [(2:ℚ), 5] (mkMask [1, 0] [2, 0] [3, 0])).length)
      ∧ agg_sum [(2:ℚ), 5] (mkMask [1, 0] [2, 0] [3, 0])
        = (unmaskedVals [(2:ℚ), 5] (mkMask [1, 0] [2, 0] [3, 0])).sum
      ∧ agg_prod [(2:ℚ), 5] (mkMask [1, 0] [2, 0] [3, 0])
        = (unmaskedVals [(2:ℚ), 5] (mkMask [1, 0] [2, 0] [3, 0])).prod
      ∧ agg_max [(2:ℚ), 5] (mkMask [1, 0] [2, 0] [3, 0])
        = (unmaskedVals [(2:ℚ), 5] (mkMask [1, 0] [2, 0] [3, 0])).maximum) :=
  ⟨⟨rfl, by decide⟩, claim_C1 [2, 5] [1, 0] [2, 0] [3, 0] rfl (by decide)⟩

/-- Configuration fields of cfg.model that TransferModelv2 reads. -/
structure Config where
  aggregation : Option String
  num_final_layers : ℕ
  hidden_dims : List ℕ
  lightattn : Bool
  dropout : Option ℚ
  edges : Bool
  dist : Bool
  mutant_embedding : Bool
  side_chain_module : Bool
  auxiliary_embedding : String
  single_target : Bool
  subtract_mut : Bool

/-- Line 63 of v2_model.py: self.multi_mutations is True exactly when
cfg.model.aggregation is not None. -/
def multi_mutations (cfg : Config) : Bool :=
  if cfg.aggregation ≠ none then true else false

/-- Lines 358-385 of v2_model.py, TransferModelv2._set_model_dims: returns
the triple (HIDDEN_DIM, EMBED_DIM, VOCAB_DIM). -/
def set_model_dims (cfg : Config) : ℕ × ℕ × ℕ :=
  let e0 := 128
  let e1 := if cfg.mutant_embedding then e0 + 128 else e0
  let e2 := if cfg.edges then e1 + 128 else if cfg.dist then e1 + 25 else e1
  let e3 := if cfg.side_chain_module then e2 + 128 else e2
  let e4 :=
    if cfg.auxiliary_embedding = "globalMPNN" then e3 + 128
    else if cfg.auxiliary_embedding = "localESM" then e3 + 320
    else e3
  (128, e4, if cfg.single_target then 1 else 21)

/-- Lines 72-75 of v2_model.py: the hidden sizes list of the prediction head,
first the input size, then cfg.model.hidden_dims, then VOCAB_DIM. -/
def hid_sizes (cfg : Config) : List ℕ :=
  ((set_model_dims cfg).1 * cfg.num_final_layers + (set_model_dims cfg).2.1)
    :: (cfg.hidden_dims ++ [(set_model_dims cfg).2.2])

/-- Lines 107-112 of v2_model.py: the (input size, output size) pairs of the
linear layers appended to ddg_out, one per consecutive pair of hid_sizes. -/
def ddg_out_linear_sizes (cfg : Config) : List (ℕ × ℕ) :=
  (hid_sizes cfg).zip (hid_sizes cfg).tail

theorem zip_tail_getLast (l : List ℕ) (hl : l ≠ []) :
    ∀ a : ℕ, (((a :: l).zip l).getLast?).map Prod.snd = l.getLast? := by
  induction l with
  | nil => exact absurd rfl hl
  | cons b t ih =>
    intro a
    cases t with
    | nil => simp
    | cons c ts =>
      have h1 : ((a :: b :: c :: ts).zip (b :: c :: ts)).getLast?
          = ((b :: c :: ts).zip (c :: ts)).getLast? := by
        simp only [List.zip_cons_cons, List.getLast?_cons_cons]
      rw [h1, ih (List.cons_ne_nil _ _) b, List.getLast?_cons_cons]

/-- C6: the prediction head's output dimension is 21 unless single_target is
set, in which case it is 1: _set_model_dims returns that VOCAB_DIM, and the
final linear layer of ddg_out has it as output size. -/
theorem claim_C6 (cfg : Config) :
    (set_model_dims cfg).2.2 = (if cfg.single_target then 1 else 21)
    ∧ ((ddg_out_linear_sizes cfg).getLast?).map Prod.snd
        = some (set_model_dims cfg).2.2 := by
  constructor
  · rfl
  · rw [ddg_out_linear_sizes]
    have h : hid_sizes cfg
        = ((set_model_dims cfg).1 * cfg.num_final_layers + (set_model_dims cfg).2.1)
          :: (cfg.hidden_dims ++ [(set_model_dims cfg).2.2]) := rfl
    rw [h]
    simp only [List.tail_cons]
    rw [zip_tail_getLast _ (by simp)]
    simp

/-- Semantics of torch.gather(input, 1, index) for a 3-d tensor: the output
at (b, m, e) is input[b, index[b, m, e], e]. -/
def torch_gather_dim1 {B L M E : ℕ} (input : Fin B → Fin L → Fin E → ℚ)
    (index : Fin B → Fin M → Fin E → Fin L) : Fin B → Fin M → Fin E → ℚ :=
  fun b m e => input b (index b m e) e

/-- Lines 217-218 of v2_model.py: current_positions.unsqueeze(-1).expand(B, 1,
embed_dim), the gather index built from one column of mut_positions. -/
def expand_index {B L E : ℕ} (posns : Fin B → Fin L) : Fin B → Fin 1 → Fin E → Fin L :=
  fun b _ _ => posns b

/-- Lines 217-219 of v2_model.py: gather mpnn_embed along dim 1 at the i-th
mutation's positions, then squeeze dim 1. -/
def gathered_embed {B L E N : ℕ} (mpnn_embed : Fin B → Fin L → Fin E → ℚ)
    (mut_positions : Fin B → Fin N → Fin L) (i : Fin N) : Fin B → Fin E → ℚ :=
  fun b e => torch_gather_dim1 mpnn_embed (expand_index (fun b' => mut_positions b' i)) b 0 e

/-- Lines 329-330 of v2_model.py, single-mutation mode: gather mpnn_embed
along dim 1 at mut_positions (shape (B, 1)) expanded over the embedding
dimension, then squeeze dim 1. -/
def single_gathered_embed {B L E M : ℕ} (mpnn_embed : Fin B → Fin L → Fin E → ℚ)
    (mut_positions : Fin B → Fin (M + 1) → Fin L) : Fin B → Fin E → ℚ :=
  fun b e => torch_gather_dim1 mpnn_embed (fun b' m _ => mut_positions b' m) b 0 e

/-- C2: the per-mutation embedding gathered before aggregation is exactly the
row of the concatenated per-residue embedding tensor at index
mut_positions[b, i]; in single-mutation mode the same holds with i = 0. -/
theorem claim_C2 {B L E N M : ℕ} (mpnn_embed : Fin B → Fin L → Fin E → ℚ)
    (mut_positions : Fin B → Fin N → Fin L)
    (single_positions : Fin B → Fin (M + 1) → Fin L)
    (i : Fin N) (b : Fin B) (e : Fin E) :
    gathered_embed mpnn_embed mut_positions i b e = mpnn_embed b (mut_positions b i) e
    ∧ single_gathered_embed mpnn_embed single_positions b e
        = mpnn_embed b (single_positions b 0) e :=
  ⟨rfl, rfl⟩

/-- Result of the multi-mutation aggregation step, one alternative per
aggregation branch of lines 287-298 of v2_model.py. -/
inductive AggOut where
  | meanOut : Option ℚ → AggOut
  | sumOut : ℚ → AggOut
  | prodOut : ℚ → AggOut
  | maxOut : WithBot ℚ → AggOut

/-- Lines 286-300 of v2_model.py: dispatch over the non-learned aggregation
strings, raising ValueError on anything else. -/
def nonLearnedAgg (agg : String) (vals : List ℚ) (mask : List Bool) :
    Except String AggOut :=
  if agg = "mean" then Except.ok (AggOut.meanOut (agg_mean vals mask))
  else if agg = "sum" then Except.ok (AggOut.sumOut (agg_sum vals mask))
  else if agg = "prod" then Except.ok (AggOut.prodOut (agg_prod vals mask))
  else if agg = "max" then Except.ok (AggOut.maxOut (agg_max vals mask))
  else Except.error "Invalid aggregation function selected"

/-- Lines 239-300 of v2_model.py: the whole aggregation dispatch; the mpnn
branch runs the learned aggregator (opaque here, its transformed slot values
are the input mpnnVals) and ends in the masked max of lines 268-270. -/
def multiAggregate (agg : String) (mpnnVals vals : List ℚ) (mask : List Bool) :
    Except String AggOut :=
  if agg = "mpnn" then Except.ok (AggOut.maxOut (agg_max mpnnVals mask))
  else nonLearnedAgg agg vals mask

/-- C4: in multi-mutation mode the aggregation step raises ValueError
"Invalid aggregation function selected" exactly when the aggregation string
is none of mpnn, mean, sum, prod, max. -/
theorem claim_C4 (agg : String) (mpnnVals vals : List ℚ) (mask : List Bool) :
    multiAggregate agg mpnnVals vals mask
        = Except.error "Invalid aggregation function selected"
    ↔ ¬ (agg = "mpnn" ∨ agg = "mean" ∨ agg = "sum" ∨ agg = "prod" ∨ agg = "max") := by
  unfold multiAggregate nonLearnedAgg
  split_ifs with h1 h2 h3 h4 h5 <;> simp_all

/-- The forward dispatch of lines 131 and 302 of v2_model.py: the
multi-mutation select/combine/aggregate path when self.multi_mutations, the
standard single-mutation path otherwise. singleEmb stands for the embedding
the single-mutation path produces. -/
def forward_embed (cfg : Config) (mpnnVals vals : List ℚ) (mask : List Bool)
    (singleEmb : List ℚ) : (Except String AggOut) ⊕ List ℚ :=
  if multi_mutations cfg then
    Sum.inl (multiAggregate (cfg.aggregation.getD "") mpnnVals vals mask)
  else Sum.inr singleEmb

/-- C5: self.multi_mutations is True iff cfg.model.aggregation is not None,
and forward takes the multi-mutation aggregation path exactly in that case,
the single-mutation path otherwise. -/
theorem claim_C5 (cfg : Config) (mpnnVals vals : List ℚ) (mask : List Bool)
    (singleEmb : List ℚ) :
    (multi_mutations cfg = true ↔ cfg.aggregation ≠ none)
    ∧ forward_embed cfg mpnnVals vals mask singleEmb
        = (match cfg.aggregation with
           | some a => Sum.inl (multiAggregate a mpnnVals vals mask)
           | none => Sum.inr singleEmb) := by
  cases h : cfg.aggregation <;>
    simp [forward_embed, multi_mutations, h]

/-- Which pairwise feature the multi-mutation branch computes, lines 147-186
of v2_model.py: an if on cfg.model.edges followed by an elif on
cfg.model.dist. -/
inductive PairFeature where
  | edgeFeat
  | distFeat
  | noFeat

/-- Lines 147 and 186 of v2_model.py: edges takes precedence over dist. -/
def multiPairFeature (cfg : Config) : PairFeature :=
  if cfg.edges then PairFeature.edgeFeat
  else if cfg.dist then PairFeature.distFeat
  else PairFeature.noFeat

/-- Lines 225-230 of v2_model.py: concatenate the edge features, else the
normalized distance features, else nothing, onto the gathered per-mutation
embedding. -/
def multiFeatureCat (cfg : Config) (base edgeVec distVec : List ℚ) : List ℚ :=
  if cfg.edges then base ++ edgeVec
  else if cfg.dist then base ++ distVec
  else base

/-- C7: with both cfg.model.edges and cfg.model.dist enabled, only the edge
features are computed and concatenated, and _set_model_dims counts 128 for
them (the 25 of dist is ignored). -/
theorem claim_C7 (cfg : Config) (base edgeVec distVec : List ℚ)
    (he : cfg.edges = true) (hd : cfg.dist = true) :
    multiPairFeature cfg = PairFeature.edgeFeat
    ∧ multiFeatureCat cfg base edgeVec distVec = base ++ edgeVec
    ∧ (set_model_dims cfg).2.1 = (set_model_dims { cfg with dist := false }).2.1
    ∧ (set_model_dims cfg).2.1
        = (set_model_dims { cfg with edges := false, dist := false }).2.1 + 128 := by
  refine ⟨by simp [multiPairFeature, he], by simp [multiFeatureCat, he], ?_, ?_⟩
  · simp [set_model_dims, he]
  · simp only [set_model_dims, he, hd]
    split_ifs <;> simp_all

def cfgC7 : Config :=
  { aggregation := some "mean", num_final_layers := 1, hidden_dims := [64],
    lightattn := true, dropout := none, edges := true, dist := true,
    mutant_embedding := false, side_chain_module := false,
    auxiliary_embedding := "", single_target := false, subtract_mut := false }

theorem claim_C7_witness :
    (cfgC7.edges = true ∧ cfgC7.dist = true)
    ∧ (multiPairFeature cfgC7 = PairFeature.edgeFeat
      ∧ multiFeatureCat cfgC7 [1] [2] [3] = [1] ++ [2]
      ∧ (set_model_dims cfgC7).2.1 = (set_model_dims { cfgC7 with dist := false }).2.1
      ∧ (set_model_dims cfgC7).2.1
          = (set_model_dims { cfgC7 with edges := false, dist := false }).2.1 + 128) :=
  ⟨⟨rfl, rfl⟩, claim_C7 cfgC7 [1] [2] [3] rfl rfl⟩

/-- Embedding of torch.gather(ddg, 1, AAs) on one batch row of the head
output: out[k] = row[AAs[k]], erroring (none) on an out-of-range
amino-acid index. -/
def gather_aa (row : List ℚ) : List ℕ → Option (List ℚ)
  | [] => some []
  | i :: is =>
    match row[i]?, gather_aa row is with
    | some v, some vs => some (v :: vs)
    | _, _ => none

/-- Lines 348-356 of v2_model.py: the final indexing of the head output by
mutant/wild-type amino-acid identity, on one batch row. -/
def final_index (cfg : Config) (row : List ℚ) (mutAAs wtAAs : List ℕ) :
    Option (List ℚ) :=
  if cfg.subtract_mut then
    match gather_aa row mutAAs, gather_aa row wtAAs with
    | some ms, some ws => some (List.zipWith (fun a b => a - b) ms ws)
    | _, _ => none
  else if cfg.single_target then some row
  else gather_aa row mutAAs

theorem gather_aa_eq_map (row : List ℚ) (idxs : List ℕ)
    (h : ∀ i ∈ idxs, i < row.length) :
    gather_aa row idxs = some (idxs.map (fun i => row.getD i 0)) := by
  induction idxs with
  | nil => rfl
  | cons i is ih =>
    have hi : i < row.length := h i (List.mem_cons_self i is)
    have hrow : row[i]? = some (row.getD i 0) := by
      rw [List.getElem?_eq_getElem hi, List.getD_eq_getElem?_getD,
        List.getElem?_eq_getElem hi]
      rfl
    have hrest := ih (fun j hj => h j (List.mem_cons_of_mem i hj))
    simp only [gather_aa]
    rw [hrow, hrest]
    rfl

def cfgBothTargets : Config :=
  { aggregation := none, num_final_layers := 1, hidden_dims := [],
    lightattn := false, dropout := none, edges := false, dist := false,
    mutant_embedding := false, side_chain_module := false,
    auxiliary_embedding := "", single_target := true, subtract_mut := true }

/-- C3 counterexample: with both subtract_mut and single_target set, the code
takes the subtract branch, so the head's scalar output (here the row with the
single value 3) is NOT returned unindexed as the claim's single_target clause
states: the result is the gathered difference 0. -/
theorem claim_C3_counterexample :
    final_index cfgBothTargets [3] [0] [0] = some [0]
    ∧ final_index cfgBothTargets [3] [0] [0] ≠ some [3] := by
  have h : final_index cfgBothTargets [3] [0] [0] = some [0] := by
    norm_num [final_index, cfgBothTargets, gather_aa]
  refine ⟨h, ?_⟩
  rw [h]
  intro hc
  norm_num at hc

/-- C3 (amended): subtract_mut takes precedence; when it is set ddG is the
head's score at the mutant index minus the score at the wild-type index; when
neither flag is set, the score at the mutant index alone; when single_target
is set and subtract_mut is not, the head's output is returned without any
amino-acid indexing. -/
theorem claim_C3 (cfg : Config) (row : List ℚ) (mutAAs wtAAs : List ℕ)
    (hm : ∀ i ∈ mutAAs, i < row.length) (hw : ∀ i ∈ wtAAs, i < row.length) :
    (cfg.subtract_mut = true →
      final_index cfg row mutAAs wtAAs
        = some (List.zipWith (fun a b => a - b)
            (mutAAs.map (fun i => row.getD i 0))
            (wtAAs.map (fun i => row.getD i 0))))
    ∧ (cfg.subtract_mut = false → cfg.single_target = true →
      final_index cfg row mutAAs wtAAs = some row)
    ∧ (cfg.subtract_mut = false → cfg.single_target = false →
      final_index cfg row mutAAs wtAAs
        = some (mutAAs.map (fun i => row.getD i 0))) := by
  have hgm := gather_aa_eq_map row mutAAs hm
  have hgw := gather_aa_eq_map row wtAAs hw
  refine ⟨fun hs => ?_, fun hs ht => ?_, fun hs ht => ?_⟩
  · simp [final_index, hs, hgm, hgw]
  · simp [final_index, hs, ht]
  · simp [final_index, hs, ht, hgm]

theorem claim_C3_witness :
    ((∀ i ∈ [1], i < [(1:ℚ), 2].length) ∧ (∀ i ∈ [0], i < [(1:ℚ), 2].length))
    ∧ ((cfgBothTargets.subtract_mut = true →
        final_index cfgBothTargets [(1:ℚ), 2] [1] [0]
          = some (List.zipWith (fun a b => a - b)
              ([1].map (fun i => [(1:ℚ), 2].getD i 0))
              ([0].map (fun i => [(1:ℚ), 2].getD i 0))))
      ∧ (cfgBothTargets.subtract_mut = false → cfgBothTargets.single_target = true →
        final_index cfgBothTargets [(1:ℚ), 2] [1] [0] = some [(1:ℚ), 2])
      ∧ (cfgBothTargets.subtract_mut = false → cfgBothTargets.single_target = false →
        final_index cfgBothTargets [(1:ℚ), 2] [1] [0]
          = some ([1].map (fun i => [(1:ℚ), 2].getD i 0)))) :=
  ⟨⟨by decide, by decide⟩,
    claim_C3 cfgBothTargets [1, 2] [1] [0] (by decide) (by decide)⟩

/-- Lines 39-52 of v2_model.py, _check_sequence_match: for each mutation
index, gather S at the mutation positions, compare against the wild-type
column through the broadcast difference (S_check has shape (B, 1) and the
wild-type column shape (B,), so the difference broadcasts to (B, B)), and
scatter the wild-type values into S when the summed difference is nonzero.
The mutAAs argument is unused, as in the source. -/
def check_sequence_match (S : List (List ℤ)) (wt mutAAs : List (List ℤ))
    (pos : List (List ℕ)) : List (List ℤ) :=
  (List.range (wt.headD []).length).foldl (fun Scur k =>
    let Scheck : List ℤ :=
      List.zipWith (fun row prow => row.getD (prow.getD k 0) 0) Scur pos
    let wtcol : List ℤ := wt.map (fun row => row.getD k 0)
    let total : ℤ := (Scheck.map (fun si => (wtcol.map (fun wj => si - wj)).sum)).sum
    if total ≠ 0 then
      zipWith3 (fun row prow wrow => row.set (prow.getD k 0) (wrow.getD k 0))
        Scur pos wt
    else Scur) S

/-- C8: the match test of _check_sequence_match sums the broadcast
differences, so mismatches that cancel in the sum go undetected: with
S = [[7], [1]], wt = [[5], [3]] and both mutation positions 0, the summed
difference (7-5)+(7-3)+(1-5)+(1-3) is 0, no scatter happens, and the
returned sequence still disagrees with the wild type at a mutated position
(7 instead of 5), contradicting the function's own docstring. -/
theorem claim_C8 :
    check_sequence_match [[7], [1]] [[5], [3]] [[9], [9]] [[0], [0]] = [[7], [1]]
    ∧ ((check_sequence_match [[7], [1]] [[5], [3]] [[9], [9]] [[0], [0]]).getD 0 []).getD 0 0
        ≠ (5 : ℤ) := by decide

/-- Lines 241 and 282 of v2_model.py: the padding mask over batch elements
and mutation slots. -/
def slot_mask {B n : ℕ} (mutAA wtAA posn : Fin B → Fin n → ℤ) :
    Fin B → Fin n → Bool :=
  fun b i => mutAA b i + wtAA b i + posn b i == 0

/-- Lines 243 and 283 of v2_model.py: assert(torch.sum(mask[:, 0]) == 0),
true exactly when the assertion passes. -/
def assert_first_visible {B n : ℕ} (mutAA wtAA posn : Fin B → Fin (n + 1) → ℤ) :
    Bool :=
  (∑ b : Fin B, if slot_mask mutAA wtAA posn b 0 then 1 else 0) == 0

/-- C9: the multi-mutation forward asserts that the first mutation slot of
every batch element is visible: the assertion fires exactly when some batch
element has mut + wt + pos equal to 0 in slot 0; in particular a first
mutation genuinely encoded entirely by zeros is rejected. -/
theorem claim_C9 {B n : ℕ} (mutAA wtAA posn : Fin B → Fin (n + 1) → ℤ) :
    (assert_first_visible mutAA wtAA posn = false
      ↔ ∃ b : Fin B, mutAA b 0 + wtAA b 0 + posn b 0 = 0)
    ∧ assert_first_visible (fun (_ : Fin 1) (_ : Fin 1) => (0 : ℤ))
        (fun _ _ => 0) (fun _ _ => 0) = false := by
  refine ⟨?_, by decide⟩
  rw [assert_first_visible, beq_eq_false_iff_ne, ne_eq, Finset.sum_eq_zero_iff]
  push_neg
  simp [slot_mask]

/-- Lines 168-173 of v2_model.py: look for the other mutated position among
the current position's neighbor indices E_idx; take the edge to the first
match, or a NaN-filled edge (none) when there is no match. -/
def find_edge (E_idx_row : List ℕ) (edges_row : List (List ℚ)) (p : ℕ) :
    Option (List ℚ) :=
  match E_idx_row.findIdx? (fun x => x == p) with
  | none => none
  | some j => some (edges_row.getD j [])

/-- Lines 162-179 of v2_model.py: collect the edges toward the other mutated
positions, nanmean them coordinatewise, and replace a NaN result by 0; one
batch element, one current mutation, edims edge-embedding coordinates. -/
def compiled_edge (E_idx_row : List ℕ) (edges_row : List (List ℚ))
    (others : List ℕ) (edims : ℕ) : List ℚ :=
  (List.range edims).map (fun e =>
    nan_to_num (nanmean ((others.map (find_edge E_idx_row edges_row)).map
      (fun oe => oe.map (fun erow => erow.getD e 0)))))

/-- C10: an edge toward another mutated position enters the edge feature only
when that position occurs among the current position's neighbors E_idx (a
missing edge is the NaN fill none, which nanmean ignores), and when none of
the other mutated positions are neighbors the compiled edge feature is
exactly the all-zero vector via nan_to_num. -/
theorem claim_C10 (E_idx_row : List ℕ) (edges_row : List (List ℚ))
    (others : List ℕ) (edims : ℕ) (p : ℕ) (rest : List (Option ℚ)) :
    (find_edge E_idx_row edges_row p = none ↔ p ∉ E_idx_row)
    ∧ nanmean (none :: rest) = nanmean rest
    ∧ ((∀ q ∈ others, q ∉ E_idx_row) →
        compiled_edge E_idx_row edges_row others edims = List.replicate edims 0) := by
  have hfind : ∀ q : ℕ, find_edge E_idx_row edges_row q = none ↔ q ∉ E_idx_row := by
    intro q
    rw [find_edge]
    have hidx : E_idx_row.findIdx? (fun x => x == q) = none ↔ q ∉ E_idx_row := by
      rw [List.findIdx?_eq_none_iff]
      simp only [beq_eq_false_iff_ne, ne_eq]
      constructor
      · intro h hq
        exact h q hq rfl
      · intro h x hx hxq
        exact h (hxq ▸ hx)
    cases hE : E_idx_row.findIdx? (fun x => x == q) with
    | none => simpa [hE] using hidx
    | some j => simpa [hE] using hidx
  refine ⟨hfind p, by simp [nanmean, List.filterMap_cons], fun hall => ?_⟩
  have hmapped : ∀ q ∈ others, find_edge E_idx_row edges_row q = none :=
    fun q hq => (hfind q).mpr (hall q hq)
  rw [compiled_edge]
  have hzero : ∀ e : ℕ,
      nan_to_num (nanmean ((others.map (find_edge E_idx_row edges_row)).map
        (fun oe => oe.map (fun erow => erow.getD e 0)))) = 0 := by
    intro e
    have hnone : ∀ a ∈ (others.map (find_edge E_idx_row edges_row)).map
        (fun oe => oe.map (fun erow => erow.getD e 0)), a = none := by
      intro a ha
      simp only [List.mem_map] at ha
      obtain ⟨oe, hoe, rfl⟩ := ha
      obtain ⟨q, hq, rfl⟩ := hoe
      rw [hmapped q hq]
      rfl
    have hnil : ((others.map (find_edge E_idx_row edges_row)).map
        (fun oe => oe.map (fun erow => erow.getD e 0))).filterMap id = [] := by
      simp only [List.filterMap_eq_nil_iff, id]
      exact hnone
    simp only [nanmean]
    rw [hnil]
    simp [nan_to_num]
  calc (List.range edims).map (fun e =>
        nan_to_num (nanmean ((others.map (find_edge E_idx_row edges_row)).map
          (fun oe => oe.map (fun erow => erow.getD e 0)))))
      = (List.range edims).map (fun _ => (0 : ℚ)) := List.map_congr_left (fun e _ => hzero e)
    _ = List.replicate edims 0 := by simp [List.map_const']

theorem claim_C10_witness :
    find_edge [1, 2] [[5], [6]] 3 = none
    ∧ (∀ q ∈ [3], q ∉ [1, 2])
    ∧ compiled_edge [1, 2] [[5], [6]] [3] 2 = List.replicate 2 0 :=
  ⟨(claim_C10 [1, 2] [[5], [6]] [3] 2 3 []).1.mpr (by decide), by decide,
    (claim_C10 [1, 2] [[5], [6]] [3] 2 3 []).2.2 (by decide)⟩

end ThermoMPNN
